import Mathlib

/-!
Verification of the configuration-directive resolver and audit entry points of
the Audit_Config_Linux_Apache repository (files `audit_apache/audit_apache.py`
and `audit_system/audit_system.py`).

The Python code is shallowly embedded: the filesystem is a finite association
list from path to file content, the logger is a list of log events, file writes
performed by the audit entry points are recorded as data, and the `while`-loop
traversal of `_parse_config_files` is embedded with an explicit fuel parameter
(proved sufficient below, which settles termination).
-/

namespace AuditConfig

/-! ### Python string primitives (ASCII fragment, as used by the source) -/

/-- Whitespace characters recognised by Python `str.strip` and `str.split`
(ASCII fragment). -/
def pyIsSpace (c : Char) : Bool :=
  c == ' ' || c == '\t' || c == '\n' || c == '\r' || c == '\x0b' || c == '\x0c'

/-- Python `line.strip()`: remove leading and trailing whitespace. -/
def pyStrip (s : String) : String :=
  String.mk (((s.data.dropWhile pyIsSpace).reverse.dropWhile pyIsSpace).reverse)

/-- Python `s.lower()` (ASCII fragment, per-character). -/
def pyLower (s : String) : String :=
  String.mk (s.data.map Char.toLower)

/-- Python `s.startswith(pre)`. -/
def pyStartsWith (s pre : String) : Bool :=
  pre.data.isPrefixOf s.data

/-- Python `s.split(maxsplit=1)` with whitespace separator: leading whitespace
is dropped, the first whitespace-free token is the first element, the remainder
(with its own leading whitespace dropped) is the second element when non-empty. -/
def pySplitMax1 (s : String) : List String :=
  let l := s.data.dropWhile pyIsSpace
  if l.isEmpty then []
  else
    let tok := l.takeWhile (fun c => !pyIsSpace c)
    let rest := (l.dropWhile (fun c => !pyIsSpace c)).dropWhile pyIsSpace
    if rest.isEmpty then [String.mk tok] else [String.mk tok, String.mk rest]

/-- Helper for `pySplitLines`: accumulate the current line (reversed) while
walking the character list. -/
def splitLinesAux : List Char → List Char → List String
  | [], acc => if acc.isEmpty then [] else [String.mk acc.reverse]
  | '\r' :: '\n' :: rest, acc => String.mk acc.reverse :: splitLinesAux rest []
  | '\r' :: rest, acc => String.mk acc.reverse :: splitLinesAux rest []
  | '\n' :: rest, acc => String.mk acc.reverse :: splitLinesAux rest []
  | c :: rest, acc => splitLinesAux rest (c :: acc)

/-- Python `s.splitlines()` (for `\n`, `\r`, `\r\n`). -/
def pySplitLines (s : String) : List String :=
  splitLinesAux s.data []

/-- Helper for `pyContains`: substring test on character lists. -/
def listHasSub (sub : List Char) : List Char → Bool
  | [] => sub.isEmpty
  | c :: rest => sub.isPrefixOf (c :: rest) || listHasSub sub rest

/-- Python `sub in s` substring containment. -/
def pyContains (s sub : String) : Bool :=
  listHasSub sub.data s.data

/-! ### posixpath primitives used by the source -/

/-- Python `os.path.isabs` on POSIX: the path starts with a slash. -/
def isabs (s : String) : Bool :=
  pyStartsWith s "/"

/-- Python `os.path.dirname` on POSIX: everything up to the last slash, with
trailing slashes stripped unless the result consists only of slashes. -/
def dirname (p : String) : String :=
  let head := (p.data.reverse.dropWhile (fun c => !(c == '/'))).reverse
  if head.isEmpty || head.all (fun c => c == '/') then String.mk head
  else String.mk ((head.reverse.dropWhile (fun c => c == '/')).reverse)

/-- Python `os.path.join(a, b)` on POSIX (two-argument form). -/
def pathJoin (a b : String) : String :=
  if pyStartsWith b "/" then b
  else if a.data.isEmpty || a.data.getLast? == some '/' then a ++ b
  else a ++ "/" ++ b

/-! ### Data model for `_parse_config_files` -/

/-- Content of one configuration file in the modelled filesystem.  `ok` is a
file whose read succeeds; `failsAfter k lines` is a file that exists but whose
read raises an I/O or permission error after yielding its first `k` lines
(`failsAfter 0` models a failure at `open`). -/
inductive FileContent where
  | ok (lines : List String)
  | failsAfter (k : Nat) (lines : List String)
  deriving DecidableEq

/-- The full line list of a file (as stored on disk). -/
def linesOf : FileContent → List String
  | .ok lines => lines
  | .failsAfter _ lines => lines

/-- The lines actually yielded by reading the file before any error. -/
def effectiveLines : FileContent → List String
  | .ok lines => lines
  | .failsAfter k lines => lines.take k

/-- Whether reading the file raises an error. -/
def isFailing : FileContent → Bool
  | .ok _ => false
  | .failsAfter _ _ => true

/-- A filesystem: a finite association list from path to file content.  A path
with no entry does not exist (`os.path.exists` is false). -/
abbrev FS := List (String × FileContent)

/-- Lookup of a path in the filesystem (first matching entry). -/
def fsLookup (fs : FS) (p : String) : Option FileContent :=
  (fs.find? (fun e => e.1 == p)).map Prod.snd

/-- Log events emitted by the resolver, in emission order. -/
inductive LogEvent where
  | rootMissing (path : String)
  | scanning (path : String)
  | missingWarning (path : String)
  | readError (path : String)
  deriving DecidableEq

/-- An insertion-ordered string-to-string dictionary, modelling a Python dict
with string keys and values. -/
abbrev Dict := List (String × String)

/-- Python `d[k] = v`: overwrite the entry in place when the key is present,
append otherwise. -/
def dictSet (m : Dict) (k v : String) : Dict :=
  if m.any (fun e => e.1 == k) then
    m.map (fun e => if e.1 == k then (k, v) else e)
  else m ++ [(k, v)]

/-- Python `d.get(k)`. -/
def dictGet (m : Dict) (k : String) : Option String :=
  (m.find? (fun e => e.1 == k)).map Prod.snd

/-- Result of one resolver run: the directive map, the scanned files in scan
order, the log, the directive update events `(directive, value)` in temporal
order, and the include enqueue trace `(raw token, enqueued path)` in temporal
order. -/
structure RunOut where
  found : Dict
  reads : List String
  log : List LogEvent
  events : List (String × String)
  queued : List (String × String)
  deriving DecidableEq

/-! ### Embedding of `_parse_config_files` (audit_apache.py lines 105-181) -/

/-- Line 155: a stripped line is skipped when it is empty or starts with `#`. -/
def isSkippable (line : String) : Bool :=
  line.data.isEmpty || pyStartsWith line "#"

/-- Line 159: `line.lower().startswith(('include ', 'includeoptional '))`.
Note the literal space character after each keyword. -/
def isIncludeLine (line : String) : Bool :=
  pyStartsWith (pyLower line) "include " || pyStartsWith (pyLower line) "includeoptional "

/-- Lines 161-163: an include path that is not absolute is joined to the
directory of the root configuration file. -/
def resolveIncludePath (configDir raw : String) : String :=
  if isabs raw then raw else pathJoin configDir raw

/-- Lines 152-175: process the yielded lines of one file.  Returns the updated
directive dict, the include enqueue pairs `(raw token, resolved path)` in line
order, and the directive update events in line order.  `D` is the
`directives_to_find` list. -/
def scanLines (D : List String) (configDir : String) :
    List String → Dict → Dict × List (String × String) × List (String × String)
  | [], found => (found, [], [])
  | rawLine :: rest, found =>
    let line := pyStrip rawLine
    if isSkippable line then
      scanLines D configDir rest found
    else if isIncludeLine line then
      let raw := (pySplitMax1 line).getD 1 ""
      let s := scanLines D configDir rest found
      (s.1, (raw, resolveIncludePath configDir raw) :: s.2.1, s.2.2)
    else
      let parts := pySplitMax1 line
      let directive := parts.getD 0 ""
      if directive ∈ D then
        let value := if parts.length > 1 then parts.getD 1 "" else "Activé (sans valeur)"
        let s := scanLines D configDir rest (dictSet found directive value)
        (s.1, s.2.1, (directive, value) :: s.2.2)
      else
        scanLines D configDir rest found

/-- Lines 138-178: the queue-drain loop.  The queue is popped at the front
(`pop(0)`, FIFO), visited paths are skipped, missing paths are warned about and
skipped, and include targets found while scanning a file are appended at the
back of the queue.  The fuel parameter makes the recursion structural; it is
proved sufficient below. -/
def auditLoop (D : List String) (fs : FS) (configDir : String) :
    Nat → List String → List String → Dict → RunOut
  | 0, _, _, found => ⟨found, [], [], [], []⟩
  | _ + 1, [], _, found => ⟨found, [], [], [], []⟩
  | fuel + 1, p :: rest, processed, found =>
    if p ∈ processed then auditLoop D fs configDir fuel rest processed found
    else
      match fsLookup fs p with
      | none =>
        let r := auditLoop D fs configDir fuel rest (p :: processed) found
        { r with log := .missingWarning p :: r.log }
      | some content =>
        let s := scanLines D configDir (effectiveLines content) found
        let r := auditLoop D fs configDir fuel
          (rest ++ (s.2.1.map Prod.snd)) (p :: processed) s.1
        { found := r.found,
          reads := p :: r.reads,
          log := .scanning p :: (if isFailing content then .readError p :: r.log else r.log),
          events := s.2.2 ++ r.events,
          queued := s.2.1 ++ r.queued }

/-- Lines 124-129: the fixed list of directives of interest. -/
def directives_to_find : List String :=
  ["ServerTokens", "ServerSignature", "TraceEnable", "KeepAlive", "KeepAliveTimeout",
   "Timeout", "MaxRequestWorkers", "User", "Group", "Listen", "LogLevel",
   "ErrorLog", "CustomLog", "SSLEngine", "SSLProtocol", "SSLCipherSuite",
   "Options", "AllowOverride"]

/-- Line 131: `{key: "Non trouvé" for key in directives_to_find}`. -/
def initFound (D : List String) : Dict :=
  D.foldl (fun m d => dictSet m d "Non trouvé") []

/-- Total number of stored lines in the filesystem; `1 +` this bounds the
number of loop iterations. -/
def totalLines (fs : FS) : Nat :=
  (fs.map (fun e => (linesOf e.2).length)).sum

/-- Fuel that suffices to drain the queue (proved below). -/
def fuelFor (fs : FS) : Nat :=
  1 + totalLines fs

/-- Total stored line count of the entries whose path is not yet processed;
together with the queue length this bounds the remaining loop iterations. -/
def sumLines (fs : FS) (pr : List String) : Nat :=
  ((fs.filter (fun e => !(pr.contains e.1))).map (fun e => (linesOf e.2).length)).sum

/-- Lines 105-181: `_parse_config_files(config_file_path, logger)`, generalised
over the directive list `D` (the source fixes `D = directives_to_find`; the code
is uniform in the list).  An empty path models a falsy `config_file_path`. -/
def parse_config_files (D : List String) (fs : FS) (path : String) : RunOut :=
  if path.data.isEmpty || (fsLookup fs path).isNone then
    { found := [], reads := [], log := [.rootMissing path], events := [], queued := [] }
  else
    auditLoop D fs (dirname path) (fuelFor fs) [path] [] (initFound D)

/-! ### Embedding of `_get_loaded_modules` (audit_apache.py lines 70-103) -/

/-- Lines 92-96: keep the first whitespace token of every stripped stdout line
that contains the substring `module`. -/
def collectModules (out : String) : List String :=
  (pySplitLines out).foldl
    (fun acc l =>
      let l := pyStrip l
      if pyContains l "module" then acc ++ [(pySplitMax1 l).getD 0 ""] else acc)
    []

/-- Lines 70-103: `_get_loaded_modules(logger)`.  The input is the stdout of
`apache2ctl -M` when the command succeeds, or `none` when the command is
missing (`FileNotFoundError`) or fails (`CalledProcessError`); the except
branch returns the empty list, the normal branch returns `sorted(modules)`. -/
def get_loaded_modules (output : Option String) : List String :=
  match output with
  | none => []
  | some out => List.mergeSort (collectModules out)

/-! ### Embedding of the audit entry points (file writes as data) -/

/-- What an audit entry point returned: the results dictionary itself (the
early-return path of `run_apache_audit`) or the name of the written report. -/
inductive AuditReturn where
  | resultsDict
  | reportFile (name : String)
  deriving DecidableEq

/-- Observable outcome of one audit entry point: the report files written and
the returned value. -/
structure AuditRun where
  written : List String
  ret : AuditReturn
  deriving DecidableEq

/-- Report filename built at audit_apache.py line 228. -/
def apacheReportName (now : String) : String :=
  "audits/audit_apache_" ++ now ++ ".json"

/-- Report filename built at audit_system.py line 253. -/
def linuxReportName (now : String) : String :=
  "audits/audit_systeme_" ++ now ++ ".json"

/-- Lines 186-232 of audit_apache.py: `run_apache_audit(logger)`.
`server_info` is the value of `_get_apache_version_and_paths` (`none` when
`apache2ctl -V` fails); a falsy value (None or empty dict) triggers the early
return at line 213 with the results dict, before any file is written.
Otherwise the report is written (lines 227-230) and its name returned. -/
def run_apache_audit (server_info : Option Dict) (modules : List String)
    (config_directives : RunOut) (now : String) : AuditRun :=
  if (match server_info with | none => true | some d => d.isEmpty) then
    { written := [], ret := .resultsDict }
  else
    { written := [apacheReportName now], ret := .reportFile (apacheReportName now) }

/-- Lines 221-258 of audit_system.py: `run_linux_audit(logger)`.  Every probe
result is stored in the results dict; there is no early return, so the report
file is always written and its name returned. -/
def run_linux_audit (os_info user_info network_info file_permissions pending_updates : Dict)
    (now : String) : AuditRun :=
  { written := [linuxReportName now], ret := .reportFile (linuxReportName now) }

/-! ### Derived notions used in the claim statements -/

/-- The last update value recorded for directive `d` in an event trace
(`none` when the trace never updates `d`). -/
def lastUpd (evs : List (String × String)) (d : String) : Option String :=
  evs.foldl (fun acc e => if e.1 == d then some e.2 else acc) none

/-- The raw include tokens of a line list, in line order: for each non-blank,
non-comment line recognised as an include, the remainder after the keyword. -/
def rawIncludeTokens : List String → List String
  | [] => []
  | rawLine :: rest =>
    let line := pyStrip rawLine
    if isSkippable line then rawIncludeTokens rest
    else if isIncludeLine line then
      (pySplitMax1 line).getD 1 "" :: rawIncludeTokens rest
    else rawIncludeTokens rest

/-- Replace a mid-read failure by a clean read of exactly the lines that were
yielded before the error. -/
def healContent : FileContent → FileContent
  | .ok lines => .ok lines
  | .failsAfter k lines => .ok (lines.take k)

/-- The filesystem in which the entries for path `p` are healed. -/
def healFile (p : String) (fs : FS) : FS :=
  fs.map (fun e => if e.1 == p then (e.1, healContent e.2) else e)

/-- Insert a read-error event right after each scan event for path `p` (the
resolver scans a path at most once, so at most one insertion occurs). -/
def insertAfterScan (p : String) : List LogEvent → List LogEvent
  | [] => []
  | e :: es =>
    if e = LogEvent.scanning p then e :: LogEvent.readError p :: insertAfterScan p es
    else e :: insertAfterScan p es

/-! ### Concrete filesystem fixtures for the claims -/

/-- Fixture for C3: the root declares `ServerTokens A`, the file included after
it declares `ServerTokens B`. -/
def fsOverride : FS :=
  [("/etc/apache2/apache2.conf", .ok ["ServerTokens A", "Include conf-extra.conf"]),
   ("/etc/apache2/conf-extra.conf", .ok ["ServerTokens B"])]

/-- Fixture for C4: the concrete two-file scenario of the spec. -/
def fsConcrete : FS :=
  [("/etc/apache2/apache2.conf", .ok ["ServerTokens Prod", "Include conf-extra.conf"]),
   ("/etc/apache2/conf-extra.conf", .ok ["ServerTokens Full", "SSLEngine on"])]

/-- Fixture for C5: the root file includes itself (a direct include cycle). -/
def fsCycle : FS :=
  [("/etc/apache2/apache2.conf", .ok ["Include apache2.conf", "ServerTokens Prod"])]

/-- Fixture for C6: a nested relative include.  `sub/a.conf` includes the
relative path `b.conf`; the resolver joins it to the root directory, so
`/etc/apache2/b.conf` is read and `/etc/apache2/sub/b.conf` is not. -/
def fsNested : FS :=
  [("/etc/apache2/apache2.conf", .ok ["Include sub/a.conf"]),
   ("/etc/apache2/sub/a.conf", .ok ["Include b.conf"]),
   ("/etc/apache2/b.conf", .ok ["ServerTokens RootDir"]),
   ("/etc/apache2/sub/b.conf", .ok ["ServerTokens SubDir"])]

/-- Fixture for C7: an include whose target contains a wildcard; the token is
used literally, so the enqueued path keeps the `*` and is simply not found. -/
def fsGlob : FS :=
  [("/etc/apache2/apache2.conf", .ok ["Include conf.d/*.conf"])]

/-- Fixture for C8: the second queued file fails mid-read after one line; a
third include target is missing; a fourth file is still scanned afterwards. -/
def fsFailing : FS :=
  [("/etc/apache2/apache2.conf",
    .ok ["Include bad.conf", "Include missing.conf", "Include good.conf"]),
   ("/etc/apache2/bad.conf", .failsAfter 1 ["ServerTokens X", "ServerTokens Y"]),
   ("/etc/apache2/good.conf", .ok ["SSLEngine on"])]

/-- Fixture for C9: a commented-out directive and a blank line only. -/
def fsComments : FS :=
  [("/etc/apache2/apache2.conf", .ok ["# ServerTokens Full", ""])]

/-! ### Dictionary lemmas -/

/-- Reading an empty dict. -/
theorem dictGet_nil (q : String) : dictGet [] q = none := rfl

/-- One-step unfolding of `dictGet`. -/
theorem dictGet_cons (e : String × String) (m : Dict) (q : String) :
    dictGet (e :: m) q = if e.1 == q then some e.2 else dictGet m q := by
  cases h : (e.1 == q) <;> simp [dictGet, List.find?, h]

/-- Writing a key that differs from the head key commutes with the head. -/
theorem dictSet_cons_ne (e : String × String) (m : Dict) (k v : String)
    (h : (e.1 == k) = false) : dictSet (e :: m) k v = e :: dictSet m k v := by
  cases ha : (m.any fun e => e.1 == k)
  · simp [dictSet, List.any_cons, h, ha, List.cons_append]
  · simp [dictSet, List.any_cons, h, ha]
    exact fun hk => absurd hk (by simpa using h)

/-- Writing the head key overwrites it in place. -/
theorem dictSet_cons_eq (e : String × String) (m : Dict) (k v : String)
    (h : (e.1 == k) = true) :
    dictSet (e :: m) k v = (k, v) :: m.map (fun e => if e.1 == k then (k, v) else e) := by
  simp [dictSet, List.any_cons, h]
  exact fun hk => absurd (by simpa using h) hk

/-- Overwriting entries for key `k` does not change reads at other keys. -/
theorem dictGet_map_ne (k v q : String) (h : ¬ q = k) :
    ∀ (m : Dict),
    dictGet (m.map (fun e => if e.1 == k then (k, v) else e)) q = dictGet m q := by
  intro m
  induction m with
  | nil => rfl
  | cons e m ih =>
    rw [List.map_cons, dictGet_cons, dictGet_cons, ih]
    cases he : (e.1 == k)
    · simp [he]
    · have hek : e.1 = k := by simpa using he
      have hkq : (k == q) = false := by
        simp; exact fun hq => h hq.symm
      simp [he, hek, hkq]

/-- Reading a dict after a write: the written key now holds the written value
and every other key is unchanged (Python dict update semantics). -/
theorem dictGet_dictSet (m : Dict) (k v q : String) :
    dictGet (dictSet m k v) q = if q = k then some v else dictGet m q := by
  induction m with
  | nil =>
    have h0 : dictSet ([] : Dict) k v = [(k, v)] := by simp [dictSet]
    rw [h0, dictGet_cons]
    by_cases hqk : q = k
    · simp [hqk]
    · have hkq : (k == q) = false := by
        simp; exact fun hq => hqk hq.symm
      simp [hkq, hqk, dictGet_nil]
  | cons e m ih =>
    cases he : (e.1 == k)
    · rw [dictSet_cons_ne e m k v he, dictGet_cons, dictGet_cons]
      cases heq : (e.1 == q)
      · rw [ih]; simp
      · have h1 : e.1 = q := by simpa using heq
        have h2 : ¬ e.1 = k := by simpa using he
        have hqk : ¬ q = k := fun hq => h2 (h1.trans hq)
        simp [hqk]
    · rw [dictSet_cons_eq e m k v he, dictGet_cons]
      by_cases hqk : q = k
      · simp [hqk]
      · have hek : e.1 = k := by simpa using he
        have hkq : (k == q) = false := by
          simp; exact fun hq => hqk hq.symm
        have heq : (e.1 == q) = false := by
          simp [hek]; exact fun hq => hqk hq.symm
        rw [dictGet_map_ne k v q hqk m, dictGet_cons]
        simp [hkq, heq, hqk]

/-- Reading the initial dict built from a key list with one fixed value. -/
theorem dictGet_foldl_init (v : String) (d : String) :
    ∀ (D : List String) (m : Dict),
    dictGet (D.foldl (fun m k => dictSet m k v) m) d
      = if d ∈ D then some v else dictGet m d := by
  intro D
  induction D with
  | nil => intro m; simp
  | cons a D ih =>
    intro m
    by_cases hd : d ∈ a :: D
    · rcases List.mem_cons.mp hd with h | h
      · subst h
        by_cases hD : d ∈ D
        · simp [List.foldl_cons, ih, hD, hd]
        · simp [List.foldl_cons, ih, hD, hd, dictGet_dictSet]
      · simp [List.foldl_cons, ih, h, hd]
    · have ha : ¬ d = a := fun h => hd (by simp [h])
      have hD : ¬ d ∈ D := fun h => hd (List.mem_cons_of_mem _ h)
      simp [List.foldl_cons, ih, hD, hd, dictGet_dictSet, ha]

/-- Every directive of interest starts out mapped to the sentinel. -/
theorem dictGet_initFound (D : List String) (d : String) (hd : d ∈ D) :
    dictGet (initFound D) d = some "Non trouvé" := by
  simpa [initFound, hd] using dictGet_foldl_init "Non trouvé" d D []

/-! ### Last-update lemmas -/

/-- Folding the update function from any accumulator yields the last update
when one exists, and the accumulator otherwise. -/
theorem foldl_lastUpd (d : String) :
    ∀ (evs : List (String × String)) (acc : Option String),
    evs.foldl (fun acc e => if e.1 == d then some e.2 else acc) acc
      = (lastUpd evs d).or acc := by
  intro evs
  induction evs with
  | nil => intro acc; simp [lastUpd]
  | cons e evs ih =>
    intro acc
    have h1 : lastUpd (e :: evs) d
        = (lastUpd evs d).or (if e.1 == d then some e.2 else none) := by
      simp only [lastUpd, List.foldl_cons]
      exact ih _
    rw [List.foldl_cons, ih, h1]
    rcases hl : lastUpd evs d with _ | w
    · cases he : (e.1 == d) <;> simp [Option.or]
    · simp [Option.or]

/-- The last update of a concatenated trace. -/
theorem lastUpd_append (a b : List (String × String)) (d : String) :
    lastUpd (a ++ b) d = (lastUpd b d).or (lastUpd a d) := by
  simp only [lastUpd, List.foldl_append]
  exact foldl_lastUpd d b (lastUpd a d)

/-- The last update of a one-step extended trace. -/
theorem lastUpd_cons (e : String × String) (evs : List (String × String)) (d : String) :
    lastUpd (e :: evs) d = (lastUpd evs d).or (if e.1 == d then some e.2 else none) := by
  simp only [lastUpd, List.foldl_cons]
  exact foldl_lastUpd d evs _

/-- Variant of `lastUpd_cons` with the head pair split into components. -/
theorem lastUpd_cons_mk (a b : String) (evs : List (String × String)) (d : String) :
    lastUpd ((a, b) :: evs) d = (lastUpd evs d).or (if a == d then some b else none) :=
  lastUpd_cons (a, b) evs d

/-! ### Line-scanning lemmas -/

/-- One-step unfolding of `scanLines`. -/
theorem scanLines_cons (D : List String) (cd rawLine : String) (ls : List String)
    (found : Dict) :
    scanLines D cd (rawLine :: ls) found =
      (let line := pyStrip rawLine
       if isSkippable line then scanLines D cd ls found
       else if isIncludeLine line then
         let raw := (pySplitMax1 line).getD 1 ""
         let s := scanLines D cd ls found
         (s.1, (raw, resolveIncludePath cd raw) :: s.2.1, s.2.2)
       else
         let parts := pySplitMax1 line
         let directive := parts.getD 0 ""
         if directive ∈ D then
           let value := if parts.length > 1 then parts.getD 1 "" else "Activé (sans valeur)"
           let s := scanLines D cd ls (dictSet found directive value)
           (s.1, s.2.1, (directive, value) :: s.2.2)
         else scanLines D cd ls found) := rfl

/-- The directive value read after scanning a file is the last update the scan
recorded for it, or the incoming value when the scan never updated it. -/
theorem scanLines_found (D : List String) (cd d : String) :
    ∀ (ls : List String) (found : Dict) (v0 : String),
    dictGet found d = some v0 →
    dictGet (scanLines D cd ls found).1 d
      = some ((lastUpd (scanLines D cd ls found).2.2 d).getD v0) := by
  intro ls
  induction ls with
  | nil =>
    intro found v0 h
    simpa [scanLines, lastUpd] using h
  | cons rawLine ls ih =>
    intro found v0 h
    rw [scanLines_cons]
    cases hskip : isSkippable (pyStrip rawLine)
    · cases hinc : isIncludeLine (pyStrip rawLine)
      · simp only [hskip, hinc, Bool.false_eq_true, ite_false]
        by_cases hD : (pySplitMax1 (pyStrip rawLine)).getD 0 "" ∈ D
        · simp only [hD, ite_true]
          set directive := (pySplitMax1 (pyStrip rawLine)).getD 0 "" with hdir
          set value := (if (pySplitMax1 (pyStrip rawLine)).length > 1
            then (pySplitMax1 (pyStrip rawLine)).getD 1 ""
            else "Activé (sans valeur)") with hval
          by_cases hdd : directive = d
          · have h1 : dictGet (dictSet found directive value) d = some value := by
              rw [dictGet_dictSet]; simp [hdd]
            have h2 := ih (dictSet found directive value) value h1
            rw [lastUpd_cons_mk]
            have hb : (directive == d) = true := by simpa using hdd
            rw [hb]
            simp only [ite_true]
            rcases hl : lastUpd (scanLines D cd ls (dictSet found directive value)).2.2 d with _ | w
            · rw [hl] at h2
              simpa [Option.none_or] using h2
            · rw [hl] at h2
              simpa [Option.or_some] using h2
          · have h1 : dictGet (dictSet found directive value) d = some v0 := by
              rw [dictGet_dictSet, if_neg (fun hq => hdd (Eq.symm hq))]
              exact h
            have h2 := ih (dictSet found directive value) v0 h1
            rw [lastUpd_cons_mk]
            have hb : (directive == d) = false := by simpa using hdd
            rw [hb]
            simpa [Option.or_none] using h2
        · simp only [hD, ite_false]
          exact ih found v0 h
      · simp only [hskip, hinc, Bool.false_eq_true, ite_false, ite_true]
        exact ih found v0 h
    · simp only [hskip, ite_true]
      exact ih found v0 h

/-- The include pairs produced by a scan are exactly the raw include tokens of
the lines, each paired with its resolution against the configuration
directory; in particular they do not depend on the directive dict. -/
theorem scanLines_incs (D : List String) (cd : String) :
    ∀ (ls : List String) (found : Dict),
    (scanLines D cd ls found).2.1
      = (rawIncludeTokens ls).map (fun t => (t, resolveIncludePath cd t)) := by
  intro ls
  induction ls with
  | nil => intro found; rfl
  | cons rawLine ls ih =>
    intro found
    rw [scanLines_cons]
    cases hskip : isSkippable (pyStrip rawLine)
    · cases hinc : isIncludeLine (pyStrip rawLine)
      · simp only [hskip, hinc, Bool.false_eq_true, ite_false]
        by_cases hD : (pySplitMax1 (pyStrip rawLine)).getD 0 "" ∈ D
        · simp only [hD, ite_true]
          simp [rawIncludeTokens, hskip, hinc, ih]
        · simp only [hD, ite_false]
          simp [rawIncludeTokens, hskip, hinc, ih]
      · simp only [hskip, hinc, Bool.false_eq_true, ite_false, ite_true]
        simp [rawIncludeTokens, hskip, hinc, ih]
    · simp only [hskip, ite_true]
      simp [rawIncludeTokens, hskip, ih]

/-- A file with `n` lines enqueues at most `n` includes. -/
theorem rawIncludeTokens_length_le : ∀ (ls : List String),
    (rawIncludeTokens ls).length ≤ ls.length := by
  intro ls
  induction ls with
  | nil => simp [rawIncludeTokens]
  | cons rawLine ls ih =>
    simp only [rawIncludeTokens]
    cases hskip : isSkippable (pyStrip rawLine)
    · cases hinc : isIncludeLine (pyStrip rawLine) <;>
        simp only [hskip, hinc, Bool.false_eq_true, ite_false, ite_true] <;>
        simp [Nat.le_succ_of_le ih, Nat.succ_le_succ ih]
    · simp only [hskip, ite_true]
      exact Nat.le_succ_of_le ih

/-- Bound on the number of includes enqueued while scanning one file. -/
theorem scanLines_incs_length_le (D : List String) (cd : String) (ls : List String)
    (found : Dict) : (scanLines D cd ls found).2.1.length ≤ ls.length := by
  rw [scanLines_incs]
  simpa using rawIncludeTokens_length_le ls

/-- Dropping the blank and comment lines of a file does not change the scan
result at all. -/
theorem scanLines_filter (D : List String) (cd : String) :
    ∀ (ls : List String) (found : Dict),
    scanLines D cd (ls.filter (fun l => !(isSkippable (pyStrip l)))) found
      = scanLines D cd ls found := by
  intro ls
  induction ls with
  | nil => intro found; rfl
  | cons rawLine ls ih =>
    intro found
    cases hskip : isSkippable (pyStrip rawLine)
    · rw [List.filter_cons_of_pos (by simp [hskip])]
      rw [scanLines_cons D cd rawLine (ls.filter _), scanLines_cons D cd rawLine ls]
      simp only [hskip, Bool.false_eq_true, ite_false]
      cases hinc : isIncludeLine (pyStrip rawLine)
      · simp only [hinc, Bool.false_eq_true, ite_false]
        by_cases hD : (pySplitMax1 (pyStrip rawLine)).getD 0 "" ∈ D
        · simp only [hD, ite_true, ih]
        · simp only [hD, ite_false, ih]
      · simp only [hinc, ite_true, ih]
    · rw [List.filter_cons_of_neg (by simp [hskip])]
      rw [ih, scanLines_cons]
      simp only [hskip, ite_true]

/-! ### Loop unfolding lemmas -/

/-- Unfolding: no fuel. -/
theorem auditLoop_zero (D : List String) (fs : FS) (cd : String) (q pr : List String)
    (found : Dict) : auditLoop D fs cd 0 q pr found = ⟨found, [], [], [], []⟩ := by
  cases q <;> rfl

/-- Unfolding: empty queue. -/
theorem auditLoop_nil (D : List String) (fs : FS) (cd : String) (fuel : Nat)
    (pr : List String) (found : Dict) :
    auditLoop D fs cd (fuel + 1) [] pr found = ⟨found, [], [], [], []⟩ := rfl

/-- Unfolding: the popped path was already processed. -/
theorem auditLoop_cons_mem (D : List String) (fs : FS) (cd : String) (fuel : Nat)
    (p : String) (rest pr : List String) (found : Dict) (h : p ∈ pr) :
    auditLoop D fs cd (fuel + 1) (p :: rest) pr found
      = auditLoop D fs cd fuel rest pr found := by
  simp [auditLoop, h]

/-- Unfolding: the popped path is new but does not exist; it is marked
processed, a warning is logged, and the traversal continues. -/
theorem auditLoop_cons_missing (D : List String) (fs : FS) (cd : String) (fuel : Nat)
    (p : String) (rest pr : List String) (found : Dict) (h : p ∉ pr)
    (hl : fsLookup fs p = none) :
    auditLoop D fs cd (fuel + 1) (p :: rest) pr found
      = { auditLoop D fs cd fuel rest (p :: pr) found with
          log := LogEvent.missingWarning p
            :: (auditLoop D fs cd fuel rest (p :: pr) found).log } := by
  simp [auditLoop, h, hl]

/-- Unfolding: the popped path is new and exists; its yielded lines are
scanned, its includes are appended to the queue, and a read error is logged
after the scan when the read fails. -/
theorem auditLoop_cons_scan (D : List String) (fs : FS) (cd : String) (fuel : Nat)
    (p : String) (rest pr : List String) (found : Dict) (content : FileContent)
    (h : p ∉ pr) (hl : fsLookup fs p = some content) :
    auditLoop D fs cd (fuel + 1) (p :: rest) pr found
      = { found := (auditLoop D fs cd fuel
            (rest ++ ((scanLines D cd (effectiveLines content) found).2.1.map Prod.snd))
            (p :: pr) (scanLines D cd (effectiveLines content) found).1).found,
          reads := p :: (auditLoop D fs cd fuel
            (rest ++ ((scanLines D cd (effectiveLines content) found).2.1.map Prod.snd))
            (p :: pr) (scanLines D cd (effectiveLines content) found).1).reads,
          log := LogEvent.scanning p ::
            (if isFailing content then
              LogEvent.readError p :: (auditLoop D fs cd fuel
                (rest ++ ((scanLines D cd (effectiveLines content) found).2.1.map Prod.snd))
                (p :: pr) (scanLines D cd (effectiveLines content) found).1).log
             else (auditLoop D fs cd fuel
                (rest ++ ((scanLines D cd (effectiveLines content) found).2.1.map Prod.snd))
                (p :: pr) (scanLines D cd (effectiveLines content) found).1).log),
          events := (scanLines D cd (effectiveLines content) found).2.2 ++ (auditLoop D fs cd fuel
            (rest ++ ((scanLines D cd (effectiveLines content) found).2.1.map Prod.snd))
            (p :: pr) (scanLines D cd (effectiveLines content) found).1).events,
          queued := (scanLines D cd (effectiveLines content) found).2.1 ++ (auditLoop D fs cd fuel
            (rest ++ ((scanLines D cd (effectiveLines content) found).2.1.map Prod.snd))
            (p :: pr) (scanLines D cd (effectiveLines content) found).1).queued } := by
  simp [auditLoop, h, hl]

/-! ### Fuel sufficiency -/

/-- Adding a processed path can only shrink the unprocessed line count. -/
theorem sumLines_anti (fs : FS) (p : String) (pr : List String) :
    sumLines fs (p :: pr) ≤ sumLines fs pr := by
  induction fs with
  | nil => simp [sumLines]
  | cons e fs ih =>
    simp only [sumLines, List.filter_cons] at ih ⊢
    cases hpr : pr.contains e.1
    · have hm : e.1 ∉ pr := by simpa using hpr
      cases hp : (p == e.1)
      · have hne : ¬ e.1 = p := by
          intro hq; rw [hq] at hp; simp at hp
        have h1 : ((p :: pr).contains e.1) = false := by
          simp [hne, hm]
        simp only [h1, hpr, Bool.not_false, ite_true, List.map_cons, List.sum_cons]
        exact Nat.add_le_add_left ih _
      · have hq : e.1 = p := Eq.symm (by simpa using hp)
        have h1 : ((p :: pr).contains e.1) = true := by simp [hq]
        simp only [h1, hpr, Bool.not_true, Bool.not_false, Bool.false_eq_true,
          ite_false, ite_true, List.map_cons, List.sum_cons]
        exact Nat.le_trans ih (Nat.le_add_left _ _)
    · have hm : e.1 ∈ pr := by simpa using hpr
      have h1 : ((p :: pr).contains e.1) = true := by simp [hm]
      simp only [h1, hpr, Bool.not_true, Bool.false_eq_true, ite_false]
      exact ih

/-- Processing an existing unprocessed path removes at least its line count
from the unprocessed total. -/
theorem sumLines_lookup (p : String) (c : FileContent) :
    ∀ (fs : FS) (pr : List String), fsLookup fs p = some c → p ∉ pr →
    (linesOf c).length + sumLines fs (p :: pr) ≤ sumLines fs pr := by
  intro fs
  induction fs with
  | nil => intro pr h; simp [fsLookup] at h
  | cons e fs ih =>
    intro pr h hp
    cases he : (e.1 == p)
    · have h2 : fsLookup fs p = some c := by
        simpa [fsLookup, List.find?, he] using h
      have h3 := ih pr h2 hp
      simp only [sumLines, List.filter_cons] at h3 ⊢
      cases hpr : pr.contains e.1
      · have hm : e.1 ∉ pr := by simpa using hpr
        have hne : ¬ e.1 = p := by simpa using he
        have h1 : ((p :: pr).contains e.1) = false := by simp [hne, hm]
        simp only [h1, hpr, Bool.not_false, ite_true, List.map_cons, List.sum_cons]
        rw [Nat.add_left_comm]
        exact Nat.add_le_add_left h3 _
      · have hm : e.1 ∈ pr := by simpa using hpr
        have h1 : ((p :: pr).contains e.1) = true := by simp [hm]
        simp only [h1, hpr, Bool.not_true, Bool.false_eq_true, ite_false]
        exact h3
    · have hc : e.2 = c := by
        simpa [fsLookup, List.find?, he] using h
      have hep : e.1 = p := by simpa using he
      have hpr : pr.contains e.1 = false := by
        cases hq : pr.contains e.1
        · rfl
        · have hmem : e.1 ∈ pr := by simpa using hq
          rw [hep] at hmem
          exact absurd hmem hp
      have h1 : ((p :: pr).contains e.1) = true := by simp [hep]
      simp only [sumLines, List.filter_cons, h1, hpr, Bool.not_true, Bool.not_false,
        Bool.false_eq_true, ite_false, ite_true, List.map_cons, List.sum_cons]
      rw [hc]
      exact Nat.add_le_add_left (sumLines_anti fs p pr) _

/-- The yielded lines are never more numerous than the stored lines. -/
theorem effectiveLines_length_le (c : FileContent) :
    (effectiveLines c).length ≤ (linesOf c).length := by
  cases c with
  | ok lines => exact Nat.le_refl _
  | failsAfter k lines =>
    simp only [effectiveLines, linesOf, List.length_take]
    exact Nat.min_le_right _ _

/-- With nothing processed, the unprocessed line count is the total. -/
theorem sumLines_nil_processed (fs : FS) : sumLines fs [] = totalLines fs := by
  simp [sumLines, totalLines]

/-- One extra unit of fuel beyond the measure of the current state changes
nothing: the loop has already drained the queue within the measure. -/
theorem auditLoop_fuel_succ (D : List String) (fs : FS) (cd : String) :
    ∀ (fuel : Nat) (q pr : List String) (found : Dict),
    q.length + sumLines fs pr ≤ fuel →
    auditLoop D fs cd (fuel + 1) q pr found = auditLoop D fs cd fuel q pr found := by
  intro fuel
  induction fuel with
  | zero =>
    intro q pr found h
    cases q with
    | nil => rw [auditLoop_nil, auditLoop_zero]
    | cons p rest => simp [List.length_cons] at h
  | succ fuel ih =>
    intro q pr found h
    cases q with
    | nil => rw [auditLoop_nil, auditLoop_nil]
    | cons p rest =>
      by_cases hp : p ∈ pr
      · rw [auditLoop_cons_mem _ _ _ _ _ _ _ _ hp, auditLoop_cons_mem _ _ _ _ _ _ _ _ hp]
        apply ih
        simp only [List.length_cons] at h
        omega
      · cases hl : fsLookup fs p with
        | none =>
          rw [auditLoop_cons_missing _ _ _ _ _ _ _ _ hp hl,
            auditLoop_cons_missing _ _ _ _ _ _ _ _ hp hl]
          have ha := sumLines_anti fs p pr
          simp only [List.length_cons] at h
          rw [ih rest (p :: pr) found (by omega)]
        | some c =>
          rw [auditLoop_cons_scan _ _ _ _ _ _ _ _ _ hp hl,
            auditLoop_cons_scan _ _ _ _ _ _ _ _ _ hp hl]
          have hincs := scanLines_incs_length_le D cd (effectiveLines c) found
          have heff := effectiveLines_length_le c
          have hlk := sumLines_lookup p c fs pr hl hp
          simp only [List.length_cons] at h
          rw [ih (rest ++ ((scanLines D cd (effectiveLines c) found).2.1.map Prod.snd))
            (p :: pr) (scanLines D cd (effectiveLines c) found).1
            (by simp only [List.length_append, List.length_map]; omega)]

/-- Any amount of extra fuel beyond the measure changes nothing. -/
theorem auditLoop_fuel_add (D : List String) (fs : FS) (cd : String) (fuel : Nat)
    (q pr : List String) (found : Dict) (h : q.length + sumLines fs pr ≤ fuel) :
    ∀ (k : Nat), auditLoop D fs cd (fuel + k) q pr found
      = auditLoop D fs cd fuel q pr found := by
  intro k
  induction k with
  | zero => rfl
  | succ k ih =>
    have h2 : fuel + (k + 1) = (fuel + k) + 1 := rfl
    rw [h2, auditLoop_fuel_succ D fs cd (fuel + k) q pr found
      (Nat.le_trans h (Nat.le_add_right _ _)), ih]

/-- Two sufficient fuels give the same run. -/
theorem auditLoop_fuel_eq (D : List String) (fs : FS) (cd : String) (f1 f2 : Nat)
    (q pr : List String) (found : Dict) (h1 : q.length + sumLines fs pr ≤ f1)
    (h2 : q.length + sumLines fs pr ≤ f2) :
    auditLoop D fs cd f1 q pr found = auditLoop D fs cd f2 q pr found := by
  have e1 := auditLoop_fuel_add D fs cd (q.length + sumLines fs pr) q pr found
    (Nat.le_refl _) (f1 - (q.length + sumLines fs pr))
  have e2 := auditLoop_fuel_add D fs cd (q.length + sumLines fs pr) q pr found
    (Nat.le_refl _) (f2 - (q.length + sumLines fs pr))
  rw [Nat.add_sub_cancel' h1] at e1
  rw [Nat.add_sub_cancel' h2] at e2
  exact e1.trans e2.symm

/-! ### Reads are fresh and unique -/

/-- The scan trace never repeats a path and only visits unprocessed paths. -/
theorem auditLoop_reads (D : List String) (fs : FS) (cd : String) :
    ∀ (fuel : Nat) (q pr : List String) (found : Dict),
    (auditLoop D fs cd fuel q pr found).reads.Nodup ∧
    ∀ x ∈ (auditLoop D fs cd fuel q pr found).reads, x ∉ pr := by
  intro fuel
  induction fuel with
  | zero =>
    intro q pr found
    rw [auditLoop_zero]
    exact ⟨List.nodup_nil, by simp⟩
  | succ fuel ih =>
    intro q pr found
    cases q with
    | nil =>
      rw [auditLoop_nil]
      exact ⟨List.nodup_nil, by simp⟩
    | cons p rest =>
      by_cases hp : p ∈ pr
      · rw [auditLoop_cons_mem _ _ _ _ _ _ _ _ hp]
        exact ih rest pr found
      · cases hl : fsLookup fs p with
        | none =>
          rw [auditLoop_cons_missing _ _ _ _ _ _ _ _ hp hl]
          obtain ⟨h1, h2⟩ := ih rest (p :: pr) found
          exact ⟨h1, fun x hx hmem => h2 x hx (List.mem_cons_of_mem _ hmem)⟩
        | some c =>
          rw [auditLoop_cons_scan _ _ _ _ _ _ _ _ _ hp hl]
          obtain ⟨h1, h2⟩ := ih
            (rest ++ ((scanLines D cd (effectiveLines c) found).2.1.map Prod.snd))
            (p :: pr) (scanLines D cd (effectiveLines c) found).1
          constructor
          · exact List.nodup_cons.mpr
              ⟨fun hx => (h2 p hx) (List.mem_cons_self _ _), h1⟩
          · intro x hx
            rcases List.mem_cons.mp hx with hhead | htail
            · subst hhead; exact hp
            · exact fun hm => (h2 x htail) (List.mem_cons_of_mem _ hm)

/-! ### Every enqueued include path is resolved against the fixed directory -/

/-- Every include pair recorded by the loop resolves the raw token against the
configuration directory the loop was given. -/
theorem auditLoop_queued (D : List String) (fs : FS) (cd : String) :
    ∀ (fuel : Nat) (q pr : List String) (found : Dict)
    (e : String × String), e ∈ (auditLoop D fs cd fuel q pr found).queued →
    e.2 = resolveIncludePath cd e.1 := by
  intro fuel
  induction fuel with
  | zero =>
    intro q pr found e he
    rw [auditLoop_zero] at he
    simp at he
  | succ fuel ih =>
    intro q pr found e he
    cases q with
    | nil =>
      rw [auditLoop_nil] at he
      simp at he
    | cons p rest =>
      by_cases hp : p ∈ pr
      · rw [auditLoop_cons_mem _ _ _ _ _ _ _ _ hp] at he
        exact ih rest pr found e he
      · cases hl : fsLookup fs p with
        | none =>
          rw [auditLoop_cons_missing _ _ _ _ _ _ _ _ hp hl] at he
          exact ih rest (p :: pr) found e he
        | some c =>
          rw [auditLoop_cons_scan _ _ _ _ _ _ _ _ _ hp hl] at he
          rcases List.mem_append.mp he with hleft | hright
          · rw [scanLines_incs] at hleft
            rcases List.mem_map.mp hleft with ⟨t, _, ht⟩
            rw [← ht]
          · exact ih _ (p :: pr) _ e hright

/-! ### The resolved value is the last recorded update -/

/-- The directive value after the whole traversal is the last update in the
event trace, or the incoming value when the trace never touches it. -/
theorem auditLoop_found (D : List String) (fs : FS) (cd d : String) :
    ∀ (fuel : Nat) (q pr : List String) (found : Dict) (v0 : String),
    dictGet found d = some v0 →
    dictGet (auditLoop D fs cd fuel q pr found).found d
      = some ((lastUpd (auditLoop D fs cd fuel q pr found).events d).getD v0) := by
  intro fuel
  induction fuel with
  | zero =>
    intro q pr found v0 h
    rw [auditLoop_zero]
    simpa [lastUpd] using h
  | succ fuel ih =>
    intro q pr found v0 h
    cases q with
    | nil =>
      rw [auditLoop_nil]
      simpa [lastUpd] using h
    | cons p rest =>
      by_cases hp : p ∈ pr
      · rw [auditLoop_cons_mem _ _ _ _ _ _ _ _ hp]
        exact ih rest pr found v0 h
      · cases hl : fsLookup fs p with
        | none =>
          rw [auditLoop_cons_missing _ _ _ _ _ _ _ _ hp hl]
          exact ih rest (p :: pr) found v0 h
        | some c =>
          rw [auditLoop_cons_scan _ _ _ _ _ _ _ _ _ hp hl]
          have hs := scanLines_found D cd d (effectiveLines c) found v0 h
          have hr := ih (rest ++ ((scanLines D cd (effectiveLines c) found).2.1.map Prod.snd))
            (p :: pr) (scanLines D cd (effectiveLines c) found).1 _ hs
          dsimp only
          rw [lastUpd_append]
          cases hl2 : lastUpd (auditLoop D fs cd fuel
            (rest ++ ((scanLines D cd (effectiveLines c) found).2.1.map Prod.snd))
            (p :: pr) (scanLines D cd (effectiveLines c) found).1).events d with
          | none =>
            rw [hl2] at hr
            simpa [Option.none_or] using hr
          | some w =>
            rw [hl2] at hr
            simpa [Option.or_some] using hr

/-! ### Graceful degradation for read failures -/

/-- One-step unfolding of `fsLookup`. -/
theorem fsLookup_cons (e : String × FileContent) (fs : FS) (q : String) :
    fsLookup (e :: fs) q = if e.1 == q then some e.2 else fsLookup fs q := by
  cases h : (e.1 == q) <;> simp [fsLookup, List.find?, h]

/-- Lookup in a healed filesystem. -/
theorem fsLookup_healFile (p : String) : ∀ (fs : FS) (q : String),
    fsLookup (healFile p fs) q
      = if q = p then (fsLookup fs p).map healContent else fsLookup fs q := by
  intro fs
  induction fs with
  | nil =>
    intro q
    by_cases hq : q = p <;> simp [healFile, fsLookup, hq]
  | cons e fs ih =>
    intro q
    cases hep : (e.1 == p)
    · have hh : healFile p (e :: fs) = e :: healFile p fs := by
        simp [healFile, hep]
        exact fun hk => absurd hk (by simpa using hep)
      have hrp : fsLookup (e :: fs) p = fsLookup fs p := by
        rw [fsLookup_cons, hep]; simp
      cases heq : (e.1 == q)
      · have hrq : fsLookup (e :: fs) q = fsLookup fs q := by
          rw [fsLookup_cons, heq]; simp
        rw [hh, fsLookup_cons, heq, ih q, hrp, hrq]
        simp
      · have h1 : e.1 = q := by simpa using heq
        have hq : ¬ q = p := by
          intro hqp
          rw [hqp] at h1
          rw [h1] at hep
          simp at hep
        have hrq : fsLookup (e :: fs) q = some e.2 := by
          rw [fsLookup_cons, heq]; simp
        rw [hh, fsLookup_cons, heq, if_neg hq, hrq]
        simp
    · have h1 : e.1 = p := by simpa using hep
      have hh : healFile p (e :: fs) = (e.1, healContent e.2) :: healFile p fs := by
        simp [healFile, hep]
        exact fun hk => absurd h1 hk
      rw [hh, fsLookup_cons]
      by_cases hq : q = p
      · have heq : (e.1 == q) = true := by simp [h1, hq]
        have hrp : fsLookup (e :: fs) p = some e.2 := by
          rw [fsLookup_cons]; simp [h1]
        dsimp only
        rw [heq, if_pos hq, hrp]
        simp [hq]
      · have heq : (e.1 == q) = false := by
          have h2 : ¬ e.1 = q := fun hc => hq (hc.symm.trans h1)
          simpa using h2
        have hrq : fsLookup (e :: fs) q = fsLookup fs q := by
          rw [fsLookup_cons, heq]; simp
        dsimp only
        rw [heq, if_neg hq, hrq]
        simp only [Bool.false_eq_true, ite_false]
        have h3 := ih q
        rw [if_neg hq] at h3
        exact h3

/-- Healing never increases the stored line count. -/
theorem totalLines_healFile_le (p : String) (fs : FS) :
    totalLines (healFile p fs) ≤ totalLines fs := by
  induction fs with
  | nil => exact Nat.le_refl _
  | cons e fs ih =>
    simp only [healFile, totalLines, List.map_cons, List.sum_cons] at ih ⊢
    have hhead : (linesOf (if (e.1 == p) = true then (e.1, healContent e.2) else e).2).length
        ≤ (linesOf e.2).length := by
      cases hep : (e.1 == p)
      · simp
      · simp only [ite_true]
        cases e.2 with
        | ok lines => exact Nat.le_refl _
        | failsAfter k lines =>
          simp only [healContent, linesOf, List.length_take]
          exact Nat.min_le_right _ _
    exact Nat.add_le_add hhead ih

/-- Running the traversal on a filesystem where file `p` fails mid-read after
yielding `k` lines gives the same directive map, scan order, events and
enqueue trace as running it on the healed filesystem where `p` is a clean file
holding exactly those yielded lines; the log differs only by the read-error
event inserted after the scan event for `p`. -/
theorem auditLoop_healFile (D : List String) (fs : FS) (cd p : String) (k : Nat)
    (ls : List String) (h : fsLookup fs p = some (FileContent.failsAfter k ls)) :
    ∀ (fuel : Nat) (q pr : List String) (found : Dict),
    (auditLoop D fs cd fuel q pr found).found
        = (auditLoop D (healFile p fs) cd fuel q pr found).found ∧
    (auditLoop D fs cd fuel q pr found).reads
        = (auditLoop D (healFile p fs) cd fuel q pr found).reads ∧
    (auditLoop D fs cd fuel q pr found).events
        = (auditLoop D (healFile p fs) cd fuel q pr found).events ∧
    (auditLoop D fs cd fuel q pr found).queued
        = (auditLoop D (healFile p fs) cd fuel q pr found).queued ∧
    (auditLoop D fs cd fuel q pr found).log
        = insertAfterScan p (auditLoop D (healFile p fs) cd fuel q pr found).log := by
  intro fuel
  induction fuel with
  | zero =>
    intro q pr found
    rw [auditLoop_zero, auditLoop_zero]
    exact ⟨rfl, rfl, rfl, rfl, rfl⟩
  | succ fuel ih =>
    intro q pr found
    cases q with
    | nil =>
      rw [auditLoop_nil, auditLoop_nil]
      exact ⟨rfl, rfl, rfl, rfl, rfl⟩
    | cons pq rest =>
      by_cases hp : pq ∈ pr
      · rw [auditLoop_cons_mem _ _ _ _ _ _ _ _ hp, auditLoop_cons_mem _ _ _ _ _ _ _ _ hp]
        exact ih rest pr found
      · cases hl : fsLookup fs pq with
        | none =>
          have hne : ¬ pq = p := by
            intro hq; rw [hq, h] at hl; cases hl
          have hl2 : fsLookup (healFile p fs) pq = none := by
            rw [fsLookup_healFile, if_neg hne, hl]
          rw [auditLoop_cons_missing _ _ _ _ _ _ _ _ hp hl,
            auditLoop_cons_missing _ _ _ _ _ _ _ _ hp hl2]
          obtain ⟨h1, h2, h3, h4, h5⟩ := ih rest (pq :: pr) found
          refine ⟨h1, h2, h3, h4, ?_⟩
          dsimp only
          rw [h5]
          simp [insertAfterScan]
        | some c =>
          by_cases hpp : pq = p
          · subst hpp
            have hc : c = FileContent.failsAfter k ls := by
              rw [hl] at h
              exact Option.some.inj h
            subst hc
            have hl2 : fsLookup (healFile pq fs) pq = some (FileContent.ok (ls.take k)) := by
              rw [fsLookup_healFile, if_pos rfl, hl]
              rfl
            rw [auditLoop_cons_scan _ _ _ _ _ _ _ _ _ hp hl,
              auditLoop_cons_scan _ _ _ _ _ _ _ _ _ hp hl2]
            simp only [effectiveLines, isFailing, ite_true, ite_false]
            obtain ⟨h1, h2, h3, h4, h5⟩ := ih
              (rest ++ ((scanLines D cd (ls.take k) found).2.1.map Prod.snd))
              (pq :: pr) (scanLines D cd (ls.take k) found).1
            refine ⟨h1, by rw [h2], by rw [h3], by rw [h4], ?_⟩
            dsimp only
            rw [h5]
            simp [insertAfterScan]
          · have hl2 : fsLookup (healFile p fs) pq = some c := by
              rw [fsLookup_healFile, if_neg hpp, hl]
            rw [auditLoop_cons_scan _ _ _ _ _ _ _ _ _ hp hl,
              auditLoop_cons_scan _ _ _ _ _ _ _ _ _ hp hl2]
            obtain ⟨h1, h2, h3, h4, h5⟩ := ih
              (rest ++ ((scanLines D cd (effectiveLines c) found).2.1.map Prod.snd))
              (pq :: pr) (scanLines D cd (effectiveLines c) found).1
            refine ⟨h1, by rw [h2], by rw [h3], by rw [h4], ?_⟩
            dsimp only
            rw [h5]
            cases hf : isFailing c <;>
              simp [insertAfterScan, hpp]

/-! ### Claim theorems -/

/-- Claim C1, counterexample: resolving on a nonexistent root does NOT return a
mapping with every requested directive set to the sentinel; it returns the
empty mapping, in which no directive is set at all (audit_apache.py line 119
returns the empty dict). -/
theorem c1_missing_root_counterexample :
    ¬ (∀ d ∈ directives_to_find,
      dictGet (parse_config_files directives_to_find [] "/etc/apache2/apache2.conf").found d
        = some "Non trouvé") := by
  decide

/-- Claim C1, amended: for every directive list, resolving on a falsy or
nonexistent root path returns the empty mapping (no entries), logs the error,
and performs no scan; no exception is modelled because the embedded resolver
is a total function. -/
theorem c1_missing_root_amended :
    ∀ (D : List String) (fs : FS) (path : String),
    (path.data.isEmpty || (fsLookup fs path).isNone) = true →
    parse_config_files D fs path
      = { found := [], reads := [], log := [LogEvent.rootMissing path],
          events := [], queued := [] } := by
  intro D fs path h
  simp [parse_config_files, h]

/-- Witness for `c1_missing_root_amended` at a concrete input. -/
theorem c1_missing_root_witness :
    (("/etc/apache2/apache2.conf" : String).data.isEmpty
      || (fsLookup ([] : FS) "/etc/apache2/apache2.conf").isNone) = true ∧
    parse_config_files directives_to_find [] "/etc/apache2/apache2.conf"
      = { found := [], reads := [],
          log := [LogEvent.rootMissing "/etc/apache2/apache2.conf"],
          events := [], queued := [] } :=
  ⟨by decide,
    c1_missing_root_amended directives_to_find [] "/etc/apache2/apache2.conf" (by decide)⟩

/-- Claim C2, evaluated at the failing input: when the `apache2ctl -V` probe
fails (`server_info` falsy), `run_apache_audit` returns the results dict early
and writes NO report file (audit_apache.py line 213 returns before the write at
lines 227-230), contradicting the always-produce-a-file contract; by contrast
`run_linux_audit` always writes its report and returns the filename. -/
theorem c2_report_file_behavior :
    (∀ (modules : List String) (cfg : RunOut) (now : String),
      run_apache_audit none modules cfg now
        = { written := [], ret := AuditReturn.resultsDict }) ∧
    (∀ (a b c d e : Dict) (now : String),
      run_linux_audit a b c d e now
        = { written := [linuxReportName now],
            ret := AuditReturn.reportFile (linuxReportName now) }) :=
  ⟨fun _ _ _ => rfl, fun _ _ _ _ _ _ => rfl⟩

/-- Claim C3: for every filesystem and directive of interest, the resolved
value is the last update recorded in the traversal-ordered event trace (the
sentinel when no update occurred), i.e. last-write-wins over the FIFO
traversal; and in the concrete root-then-include scenario the included file's
value `B` overrides the root's earlier `A`. -/
theorem c3_last_write_wins :
    (∀ (D : List String) (fs : FS) (root d : String), d ∈ D →
      (root.data.isEmpty || (fsLookup fs root).isNone) = false →
      dictGet (parse_config_files D fs root).found d
        = some ((lastUpd (parse_config_files D fs root).events d).getD "Non trouvé")) ∧
    dictGet (parse_config_files ["ServerTokens"] fsOverride "/etc/apache2/apache2.conf").found
        "ServerTokens" = some "B" := by
  constructor
  · intro D fs root d hd hroot
    have h1 : dictGet (initFound D) d = some "Non trouvé" := dictGet_initFound D d hd
    have h2 := auditLoop_found D fs (dirname root) d (fuelFor fs) [root] [] (initFound D)
      "Non trouvé" h1
    simp only [parse_config_files, hroot, Bool.false_eq_true, ite_false]
    exact h2
  · decide

/-- Witness for `c3_last_write_wins` at a concrete input. -/
theorem c3_last_write_wins_witness :
    ("ServerTokens" ∈ directives_to_find) ∧
    ((("/etc/apache2/apache2.conf" : String).data.isEmpty
      || (fsLookup fsOverride "/etc/apache2/apache2.conf").isNone) = false) ∧
    dictGet (parse_config_files directives_to_find fsOverride
        "/etc/apache2/apache2.conf").found "ServerTokens"
      = some ((lastUpd (parse_config_files directives_to_find fsOverride
          "/etc/apache2/apache2.conf").events "ServerTokens").getD "Non trouvé") :=
  ⟨by decide, by decide,
    c3_last_write_wins.1 directives_to_find fsOverride "/etc/apache2/apache2.conf"
      "ServerTokens" (by decide) (by decide)⟩

/-- Claim C4: the concrete two-file scenario resolves ServerTokens to `Full`
(overridden by the included file), SSLEngine to `on`, and leaves KeepAlive at
the sentinel. -/
theorem c4_concrete_two_file_scenario :
    dictGet (parse_config_files ["ServerTokens", "SSLEngine", "KeepAlive"] fsConcrete
        "/etc/apache2/apache2.conf").found "ServerTokens" = some "Full" ∧
    dictGet (parse_config_files ["ServerTokens", "SSLEngine", "KeepAlive"] fsConcrete
        "/etc/apache2/apache2.conf").found "SSLEngine" = some "on" ∧
    dictGet (parse_config_files ["ServerTokens", "SSLEngine", "KeepAlive"] fsConcrete
        "/etc/apache2/apache2.conf").found "KeepAlive" = some "Non trouvé" := by
  decide

/-- Claim C5: for every finite filesystem the traversal terminates (adding any
extra fuel beyond the computed bound changes nothing, so the embedded while
loop drains its queue within the bound), every path is scanned at most once,
and the concrete self-including root is scanned exactly once and still yields
its directive. -/
theorem c5_termination_and_single_read :
    (∀ (D : List String) (fs : FS) (root : String) (extra : Nat),
      auditLoop D fs (dirname root) (fuelFor fs + extra) [root] [] (initFound D)
        = auditLoop D fs (dirname root) (fuelFor fs) [root] [] (initFound D)) ∧
    (∀ (D : List String) (fs : FS) (root : String),
      (parse_config_files D fs root).reads.Nodup) ∧
    ((parse_config_files ["ServerTokens"] fsCycle "/etc/apache2/apache2.conf").reads
        = ["/etc/apache2/apache2.conf"] ∧
      dictGet (parse_config_files ["ServerTokens"] fsCycle "/etc/apache2/apache2.conf").found
          "ServerTokens" = some "Prod") := by
  refine ⟨?_, ?_, by decide⟩
  · intro D fs root extra
    apply auditLoop_fuel_add
    rw [sumLines_nil_processed]
    simp [fuelFor]
  · intro D fs root
    by_cases h : (root.data.isEmpty || (fsLookup fs root).isNone) = true
    · simp [parse_config_files, h]
    · simp only [Bool.not_eq_true] at h
      simp only [parse_config_files, h, Bool.false_eq_true, ite_false]
      exact (auditLoop_reads D fs (dirname root) (fuelFor fs) [root] [] (initFound D)).1

/-- Claim C6: every include path the resolver ever enqueues is the raw token
resolved against the directory of the ROOT configuration file (the fixed
`config_dir` of audit_apache.py line 135), at every nesting depth; the include
pairs of one scan are exactly the raw tokens resolved against that directory;
and in the concrete nested scenario the relative include `b.conf` inside
`sub/a.conf` resolves to `/etc/apache2/b.conf`, not `/etc/apache2/sub/b.conf`. -/
theorem c6_relative_includes_use_root_dir :
    (∀ (D : List String) (fs : FS) (root : String),
      ((parse_config_files D fs root).queued.all
        (fun e => e.2 == resolveIncludePath (dirname root) e.1)) = true) ∧
    (∀ (D : List String) (cd : String) (ls : List String) (found : Dict),
      (scanLines D cd ls found).2.1
        = (rawIncludeTokens ls).map (fun t => (t, resolveIncludePath cd t))) ∧
    ((parse_config_files ["ServerTokens"] fsNested "/etc/apache2/apache2.conf").reads
        = ["/etc/apache2/apache2.conf", "/etc/apache2/sub/a.conf", "/etc/apache2/b.conf"] ∧
      dictGet (parse_config_files ["ServerTokens"] fsNested "/etc/apache2/apache2.conf").found
          "ServerTokens" = some "RootDir") := by
  refine ⟨?_, fun D cd => scanLines_incs D cd, by decide⟩
  · intro D fs root
    by_cases h : (root.data.isEmpty || (fsLookup fs root).isNone) = true
    · simp [parse_config_files, h]
    · simp only [Bool.not_eq_true] at h
      simp only [parse_config_files, h, Bool.false_eq_true, ite_false]
      rw [List.all_eq_true]
      intro e he
      have h2 := auditLoop_queued D fs (dirname root) (fuelFor fs) [root] [] (initFound D) e he
      simpa using h2

/-- Claim C7, counterexample: the stripped line `Include<TAB>conf-extra.conf`
is non-blank, non-comment, begins case-insensitively with `include` followed
by a whitespace character (a tab), yet the scanner enqueues no include from it
and records no directive update: the source requires a literal space after the
keyword, not arbitrary whitespace. -/
theorem c7_include_space_counterexample :
    isSkippable (pyStrip "Include\tconf-extra.conf") = false ∧
    pyStartsWith (pyLower (pyStrip "Include\tconf-extra.conf")) "include" = true ∧
    pyIsSpace ((pyStrip "Include\tconf-extra.conf").data.getD 7 'x') = true ∧
    (scanLines directives_to_find "/etc/apache2" ["Include\tconf-extra.conf"]
      (initFound directives_to_find)).2.1 = [] ∧
    (scanLines directives_to_find "/etc/apache2" ["Include\tconf-extra.conf"]
      (initFound directives_to_find)).2.2 = [] := by
  decide

/-- Claim C7, amended: a non-blank, non-comment line is treated as an include
directive if and only if its lowercased form starts with `include` or
`includeoptional` followed by one literal space character; such a line
enqueues exactly one path — the remainder of the line after the first token,
taken literally except that a relative path is joined to the root config
directory, with no glob expansion — and never updates the directive mapping;
concretely, a wildcard include target is enqueued with its `*` intact and is
then merely reported missing. -/
theorem c7_include_detection_amended :
    (∀ (D : List String) (cd : String) (found : Dict) (line : String),
      (scanLines D cd [line] found).2.1.length
        = (if (!(isSkippable (pyStrip line))) && isIncludeLine (pyStrip line)
           then 1 else 0)) ∧
    (∀ (D : List String) (cd : String) (found : Dict) (line : String),
      isSkippable (pyStrip line) = false → isIncludeLine (pyStrip line) = true →
      scanLines D cd [line] found
        = (found, [((pySplitMax1 (pyStrip line)).getD 1 "",
            resolveIncludePath cd ((pySplitMax1 (pyStrip line)).getD 1 ""))], [])) ∧
    ((parse_config_files ["ServerTokens"] fsGlob "/etc/apache2/apache2.conf").reads
        = ["/etc/apache2/apache2.conf"] ∧
      (parse_config_files ["ServerTokens"] fsGlob "/etc/apache2/apache2.conf").queued
        = [("conf.d/*.conf", "/etc/apache2/conf.d/*.conf")] ∧
      (parse_config_files ["ServerTokens"] fsGlob "/etc/apache2/apache2.conf").log
        = [LogEvent.scanning "/etc/apache2/apache2.conf",
           LogEvent.missingWarning "/etc/apache2/conf.d/*.conf"]) := by
  refine ⟨?_, ?_, by decide⟩
  · intro D cd found line
    rw [scanLines_cons]
    cases hskip : isSkippable (pyStrip line)
    · cases hinc : isIncludeLine (pyStrip line)
      · simp only [hskip, hinc, Bool.false_eq_true, ite_false, Bool.not_false,
          Bool.true_and]
        split <;> simp [scanLines]
      · simp [hskip, hinc, scanLines]
    · simp [hskip, scanLines]
  · intro D cd found line hskip hinc
    rw [scanLines_cons]
    simp only [hskip, hinc, Bool.false_eq_true, ite_false, ite_true]
    simp [scanLines]

/-- Witness for `c7_include_detection_amended` at a concrete input. -/
theorem c7_include_detection_witness :
    isSkippable (pyStrip "Include /etc/httpd/extra.conf") = false ∧
    isIncludeLine (pyStrip "Include /etc/httpd/extra.conf") = true ∧
    scanLines directives_to_find "/etc/apache2" ["Include /etc/httpd/extra.conf"]
        (initFound directives_to_find)
      = (initFound directives_to_find,
          [("/etc/httpd/extra.conf", "/etc/httpd/extra.conf")], []) :=
  ⟨by decide, by decide,
    c7_include_detection_amended.2.1 directives_to_find "/etc/apache2"
      (initFound directives_to_find) "Include /etc/httpd/extra.conf"
      (by decide) (by decide)⟩

/-- Claim C8: a file that fails mid-read contributes exactly the lines yielded
before the failure — the run equals the run on the healed filesystem in map,
scan order, events and enqueue trace, with only an extra read-error log event
inserted after that file's scan event — so its remaining lines are abandoned,
the failure is logged, the traversal continues, and no exception escapes (the
resolver is total); concretely, with a mid-read failure and a missing include
target the traversal still scans the later file and resolves its directive. -/
theorem c8_read_failure_graceful :
    (∀ (D : List String) (fs : FS) (root p : String) (k : Nat) (ls : List String),
      fsLookup fs p = some (FileContent.failsAfter k ls) →
      (parse_config_files D fs root).found
          = (parse_config_files D (healFile p fs) root).found ∧
      (parse_config_files D fs root).reads
          = (parse_config_files D (healFile p fs) root).reads ∧
      (parse_config_files D fs root).events
          = (parse_config_files D (healFile p fs) root).events ∧
      (parse_config_files D fs root).queued
          = (parse_config_files D (healFile p fs) root).queued ∧
      (parse_config_files D fs root).log
          = insertAfterScan p (parse_config_files D (healFile p fs) root).log) ∧
    ((parse_config_files ["ServerTokens", "SSLEngine"] fsFailing
        "/etc/apache2/apache2.conf").reads
      = ["/etc/apache2/apache2.conf", "/etc/apache2/bad.conf", "/etc/apache2/good.conf"] ∧
     dictGet (parse_config_files ["ServerTokens", "SSLEngine"] fsFailing
        "/etc/apache2/apache2.conf").found "ServerTokens" = some "X" ∧
     dictGet (parse_config_files ["ServerTokens", "SSLEngine"] fsFailing
        "/etc/apache2/apache2.conf").found "SSLEngine" = some "on" ∧
     (parse_config_files ["ServerTokens", "SSLEngine"] fsFailing
        "/etc/apache2/apache2.conf").log
      = [LogEvent.scanning "/etc/apache2/apache2.conf",
         LogEvent.scanning "/etc/apache2/bad.conf",
         LogEvent.readError "/etc/apache2/bad.conf",
         LogEvent.missingWarning "/etc/apache2/missing.conf",
         LogEvent.scanning "/etc/apache2/good.conf"]) := by
  refine ⟨?_, by decide⟩
  intro D fs root p k ls h
  have hcond : (root.data.isEmpty || (fsLookup (healFile p fs) root).isNone)
      = (root.data.isEmpty || (fsLookup fs root).isNone) := by
    rw [fsLookup_healFile]
    by_cases hr : root = p
    · subst hr
      rw [if_pos rfl, h]
      rfl
    · rw [if_neg hr]
  by_cases hroot : (root.data.isEmpty || (fsLookup fs root).isNone) = true
  · have hroot2 : (root.data.isEmpty || (fsLookup (healFile p fs) root).isNone) = true :=
      hcond.trans hroot
    simp only [parse_config_files, hroot, hroot2, ite_true]
    simp [insertAfterScan]
  · simp only [Bool.not_eq_true] at hroot
    have hroot2 : (root.data.isEmpty || (fsLookup (healFile p fs) root).isNone) = false :=
      hcond.trans hroot
    simp only [parse_config_files, hroot, hroot2, Bool.false_eq_true, ite_false]
    have hfuel : auditLoop D (healFile p fs) (dirname root) (fuelFor (healFile p fs))
        [root] [] (initFound D)
      = auditLoop D (healFile p fs) (dirname root) (fuelFor fs) [root] [] (initFound D) := by
      apply auditLoop_fuel_eq
      · rw [sumLines_nil_processed]
        simp [fuelFor]
      · rw [sumLines_nil_processed]
        simp only [List.length_cons, List.length_nil, fuelFor]
        have h3 := totalLines_healFile_le p fs
        omega
    rw [hfuel]
    exact auditLoop_healFile D fs (dirname root) p k ls h (fuelFor fs) [root] [] (initFound D)

/-- Witness for `c8_read_failure_graceful` at a concrete input. -/
theorem c8_read_failure_witness :
    fsLookup fsFailing "/etc/apache2/bad.conf"
      = some (FileContent.failsAfter 1 ["ServerTokens X", "ServerTokens Y"]) ∧
    (parse_config_files ["ServerTokens"] fsFailing "/etc/apache2/apache2.conf").found
      = (parse_config_files ["ServerTokens"]
          (healFile "/etc/apache2/bad.conf" fsFailing) "/etc/apache2/apache2.conf").found ∧
    (parse_config_files ["ServerTokens"] fsFailing "/etc/apache2/apache2.conf").log
      = insertAfterScan "/etc/apache2/bad.conf"
          (parse_config_files ["ServerTokens"]
            (healFile "/etc/apache2/bad.conf" fsFailing) "/etc/apache2/apache2.conf").log :=
  ⟨by decide,
    (c8_read_failure_graceful.1 ["ServerTokens"] fsFailing "/etc/apache2/apache2.conf"
      "/etc/apache2/bad.conf" 1 ["ServerTokens X", "ServerTokens Y"] (by decide)).1,
    (c8_read_failure_graceful.1 ["ServerTokens"] fsFailing "/etc/apache2/apache2.conf"
      "/etc/apache2/bad.conf" 1 ["ServerTokens X", "ServerTokens Y"] (by decide)).2.2.2.2⟩

/-- Claim C9: deleting the blank lines and the lines whose first non-blank
character is `#` from any file leaves the scan result (map, includes, events)
unchanged; concretely a commented-out `ServerTokens` line and a blank line
leave the entry at the sentinel. -/
theorem c9_comments_and_blanks_ignored :
    (∀ (D : List String) (cd : String) (ls : List String) (found : Dict),
      scanLines D cd (ls.filter (fun l => !(isSkippable (pyStrip l)))) found
        = scanLines D cd ls found) ∧
    dictGet (parse_config_files ["ServerTokens"] fsComments
        "/etc/apache2/apache2.conf").found "ServerTokens" = some "Non trouvé" :=
  ⟨fun D cd => scanLines_filter D cd, by decide⟩

/-- Claim C10: `_get_loaded_modules` returns the empty list when the
`apache2ctl -M` command is missing or fails, and otherwise returns exactly the
collected module names sorted in ascending order. -/
theorem c10_modules_sorted :
    get_loaded_modules none = [] ∧
    (∀ (out : String), List.Sorted (· ≤ ·) (get_loaded_modules (some out)) ∧
      (get_loaded_modules (some out)).Perm (collectModules out)) := by
  refine ⟨rfl, fun out => ⟨?_, ?_⟩⟩
  · exact List.sorted_mergeSort' (collectModules out)
  · exact List.mergeSort_perm (collectModules out) _

end AuditConfig
